import Mathlib

/-!
Shallow embedding of the Chariot DRS archive decoder (`src/drs.rs`).

The input file is modelled as a list of bytes (`List Nat`) together with a
read position; `File::read_exact` / `ReadExt::read_u32` become pure
functions on that state.  Rust `Result` together with the possibility of a
`panic!` / `expect` abort is modelled by the three-way `DrsOutcome`: a
panic is an abort that produces neither an `Ok` archive nor an `Err`
value, so it is kept distinct from `err`.
-/

/-- Read state: the whole file contents and the current read position. -/
structure ByteStream where
  data : List Nat
  pos : Nat
deriving DecidableEq, Repr

/-- Error taxonomy of the decoder (`error::*` in the crate):
`ioError` covers open/read/seek failures including short reads,
`invalidDrs` is `ErrorKind::InvalidDrs(file_name)`. -/
inductive DrsError where
  | ioError : DrsError
  | invalidDrs : String → DrsError
deriving DecidableEq, Repr

/-- The two panic sites in `drs.rs`: the `panic!` in `From<u32> for
DrsFileType` (unknown table file-type tag) and the `.expect(..)` on
`str::from_utf8` for the 4 discriminator bytes. -/
inductive DrsPanic where
  | unknownFileType : Nat → DrsPanic
  | nonUtf8 : List Nat → DrsPanic
deriving DecidableEq, Repr

/-- Outcome of running a piece of the decoder: normal return, `Err`
return, or a panic (thread abort - no value of either kind returned). -/
inductive DrsOutcome (α : Type) where
  | ok : α → DrsOutcome α
  | err : DrsError → DrsOutcome α
  | panicked : DrsPanic → DrsOutcome α
deriving DecidableEq, Repr

def DrsOutcome.bind {α β : Type} : DrsOutcome α → (α → DrsOutcome β) → DrsOutcome β
  | .ok a, f => f a
  | .err e, _ => .err e
  | .panicked p, _ => .panicked p

def DrsOutcome.isOk {α : Type} : DrsOutcome α → Bool
  | .ok _ => true
  | _ => false

def DrsOutcome.isErr {α : Type} : DrsOutcome α → Bool
  | .err _ => true
  | _ => false

def DrsOutcome.getOk {α : Type} : DrsOutcome α → α → α
  | .ok a, _ => a
  | _, d => d

/-- Contiguous run of `n` bytes starting at offset `off`. -/
def sliceAt (data : List Nat) (off n : Nat) : List Nat :=
  (data.drop off).take n

/-- Model of `file.read_exact(&mut buf)` for a buffer of length `n`: succeeds with
exactly `n` bytes, or fails with an I/O error when fewer remain. -/
def readExact (n : Nat) (s : ByteStream) : DrsOutcome (List Nat × ByteStream) :=
  if s.pos + n ≤ s.data.length then
    .ok (sliceAt s.data s.pos n, ⟨s.data, s.pos + n⟩)
  else
    .err .ioError

/-- Little-endian value of a byte list (`[b0, b1, b2, b3]` etc.). -/
def u32le (bs : List Nat) : Nat :=
  bs.foldr (fun b acc => b + 256 * acc) 0

/-- Model of `ReadExt::read_u32`: 4 bytes, little-endian. -/
def read_u32 (s : ByteStream) : DrsOutcome (Nat × ByteStream) :=
  (readExact 4 s).bind fun bs1 => .ok (u32le bs1.1, bs1.2)

/-- The Unicode White_Space code points, as tested by Rust
`char::is_whitespace` (used by `str::trim`). -/
def isUnicodeWhite (c : Nat) : Bool :=
  decide ((9 ≤ c ∧ c ≤ 13) ∨ c = 32 ∨ c = 0x85 ∨ c = 0xA0 ∨ c = 0x1680 ∨
    (0x2000 ≤ c ∧ c ≤ 0x200A) ∨ c = 0x2028 ∨ c = 0x2029 ∨ c = 0x202F ∨
    c = 0x205F ∨ c = 0x3000)

/-- Model of `str::trim`: drop whitespace code points from both ends. -/
def trimCodepoints (l : List Nat) : List Nat :=
  ((l.dropWhile isUnicodeWhite).reverse.dropWhile isUnicodeWhite).reverse

def utf8Cont (b : Nat) : Bool :=
  decide (0x80 ≤ b ∧ b ≤ 0xBF)

/-- Strict UTF-8 validation/decoding as done by `str::from_utf8`
(rejects overlong forms, surrogates and values above U+10FFFF);
returns the code-point sequence on success. -/
def utf8Decode : List Nat → Option (List Nat)
  | [] => some []
  | b :: rest =>
    if b ≤ 0x7F then
      (utf8Decode rest).map (fun cs => b :: cs)
    else if b < 0xC2 then none
    else if b ≤ 0xDF then
      match rest with
      | b1 :: rest1 =>
        if utf8Cont b1 then
          (utf8Decode rest1).map (fun cs => ((b - 0xC0) * 64 + (b1 - 0x80)) :: cs)
        else none
      | [] => none
    else if b ≤ 0xEF then
      match rest with
      | b1 :: b2 :: rest2 =>
        if decide ((if b = 0xE0 then 0xA0 else 0x80) ≤ b1 ∧
              b1 ≤ (if b = 0xED then 0x9F else 0xBF)) && utf8Cont b2 then
          (utf8Decode rest2).map
            (fun cs => ((b - 0xE0) * 4096 + (b1 - 0x80) * 64 + (b2 - 0x80)) :: cs)
        else none
      | _ => none
    else if b ≤ 0xF4 then
      match rest with
      | b1 :: b2 :: b3 :: rest3 =>
        if decide ((if b = 0xF0 then 0x90 else 0x80) ≤ b1 ∧
              b1 ≤ (if b = 0xF4 then 0x8F else 0xBF)) && utf8Cont b2 && utf8Cont b3 then
          (utf8Decode rest3).map
            (fun cs => ((b - 0xF0) * 262144 + (b1 - 0x80) * 4096 +
              (b2 - 0x80) * 64 + (b3 - 0x80)) :: cs)
        else none
      | _ => none
    else none

/-- Bytes of an ASCII string literal. -/
def strBytes (s : String) : List Nat :=
  s.toList.map Char.toNat

def EXPECTED_AOE_COPYRIGHT : List Nat :=
  strBytes "Copyright (c) 1997 Ensemble Studios." ++ [0x1A]

def EXPECTED_AOE_VERSION : List Nat := strBytes "1.00"

def EXPECTED_AOE_TYPE : List Nat := strBytes "tribe"

def EXPECTED_SWBG_COPYRIGHT : List Nat :=
  strBytes "Copyright (c) 2001 LucasArts Entertainment Company LLC" ++ [0x1A]

def EXPECTED_SWBG_VERSION : List Nat := strBytes "1.00"

def EXPECTED_SWBG_TYPE : List Nat := strBytes "swbg"

def AOE_COPYRIGHT_LEN : Nat := 40

def SWBG_COPYRIGHT_LEN : Nat := 60

/-- Code points of the discriminator text `"swbg"`. -/
def swbgText : List Nat := strBytes "swbg"

inductive DrsGameType where
  | AOE : DrsGameType
  | SWBG : DrsGameType
deriving DecidableEq, Repr

/-- Model of `fn validate_str(file_name, bytes, expected)`. -/
def validate_str (file_name : String) (bytes expected : List Nat) : DrsOutcome Unit :=
  if bytes.length < expected.length ∨ bytes.take expected.length ≠ expected then
    .err (.invalidDrs file_name)
  else
    .ok ()

/-- Model of `DrsHeader`: `copyright_info` is `Either<AoeCopyright, SwbgCopyright>`
(`Sum.inl` = AOE, `Sum.inr` = SWBG), byte arrays become byte lists. -/
structure DrsHeader where
  copyright_info : Sum (List Nat) (List Nat)
  file_version : List Nat
  file_type : List Nat
  table_count : Nat
  file_offset : Nat
deriving DecidableEq, Repr

def DrsHeader.empty : DrsHeader :=
  { copyright_info := .inl (List.replicate AOE_COPYRIGHT_LEN 0)
    file_version := List.replicate 4 0
    file_type := List.replicate 12 0
    table_count := 0
    file_offset := 0 }

def DrsHeader.game_type (h : DrsHeader) : DrsGameType :=
  match h.copyright_info with
  | .inl _ => .AOE
  | .inr _ => .SWBG

/-- Body of `DrsHeader::read_from_file` after the game type has been
determined: the stream has been rewound to offset 0, and the
variant-specific copyright block, version, type, `table_count` and
`file_offset` are read and validated in order. -/
def parseVariantHeader (gt : DrsGameType) (s : ByteStream) (file_name : String) :
    DrsOutcome (DrsHeader × ByteStream) :=
  (readExact (match gt with | .AOE => AOE_COPYRIGHT_LEN | .SWBG => SWBG_COPYRIGHT_LEN) s).bind
    fun cb =>
  (readExact 4 cb.2).bind fun vb =>
  (readExact 12 vb.2).bind fun tb =>
  (read_u32 tb.2).bind fun tc =>
  (read_u32 tc.2).bind fun fo =>
  ((match gt with
    | .AOE =>
      (validate_str file_name cb.1 EXPECTED_AOE_COPYRIGHT).bind fun _ =>
      (validate_str file_name vb.1 EXPECTED_AOE_VERSION).bind fun _ =>
      validate_str file_name tb.1 EXPECTED_AOE_TYPE
    | .SWBG =>
      (validate_str file_name cb.1 EXPECTED_SWBG_COPYRIGHT).bind fun _ =>
      (validate_str file_name vb.1 EXPECTED_SWBG_VERSION).bind fun _ =>
      validate_str file_name tb.1 EXPECTED_SWBG_TYPE) : DrsOutcome Unit).bind fun _ =>
  .ok ({ copyright_info := match gt with | .AOE => .inl cb.1 | .SWBG => .inr cb.1
         file_version := vb.1
         file_type := tb.1
         table_count := tc.1
         file_offset := fo.1 }, fo.2)

/-- Model of `DrsHeader::read_from_file`: seek to absolute offset 64, read the
4-byte discriminator, seek back to 0; `str::from_utf8(..).expect(..)`
panics on non-UTF-8 bytes; the trimmed text selects SWBG when it equals
`"swbg"`, anything else selects AOE; then the variant header is parsed
from offset 0. -/
def DrsHeader.read_from_file (data : List Nat) (file_name : String) :
    DrsOutcome (DrsHeader × ByteStream) :=
  (readExact 4 ⟨data, 64⟩).bind fun tb =>
  match utf8Decode tb.1 with
  | none => .panicked (.nonUtf8 tb.1)
  | some cps =>
    parseVariantHeader
      (if trimCodepoints cps = swbgText then .SWBG else .AOE)
      ⟨data, 0⟩ file_name

/-- DRS supported file types. -/
inductive DrsFileType where
  | Binary : DrsFileType
  | Slp : DrsFileType
  | Shp : DrsFileType
  | Wav : DrsFileType
deriving DecidableEq, Repr

/-- Model of `impl From<u32> for DrsFileType`: the four known little-endian tag
values; any other value hits the `panic!` arm. -/
def DrsFileType.from_u32 (binary_val : Nat) : DrsOutcome DrsFileType :=
  if binary_val = 0x62696E61 then .ok .Binary
  else if binary_val = 0x736C7020 then .ok .Slp
  else if binary_val = 0x73687020 then .ok .Shp
  else if binary_val = 0x77617620 then .ok .Wav
  else .panicked (.unknownFileType binary_val)

structure DrsTableHeader where
  file_type : DrsFileType
  table_offset : Nat
  file_count : Nat
deriving DecidableEq, Repr

def DrsTableHeader.new : DrsTableHeader :=
  { file_type := .Binary, table_offset := 0, file_count := 0 }

/-- Model of `DrsTableHeader::read_from_file`: one fixed 12-byte record. -/
def DrsTableHeader.read_from_file (s : ByteStream) :
    DrsOutcome (DrsTableHeader × ByteStream) :=
  (read_u32 s).bind fun ft =>
  (DrsFileType.from_u32 ft.1).bind fun t =>
  (read_u32 ft.2).bind fun toff =>
  (read_u32 toff.2).bind fun fc =>
  .ok ({ file_type := t, table_offset := toff.1, file_count := fc.1 }, fc.2)

def DrsTableHeader.file_extension (h : DrsTableHeader) : String :=
  match h.file_type with
  | .Binary => "bin"
  | .Slp => "slp"
  | .Shp => "shp"
  | .Wav => "wav"

structure DrsTableEntry where
  file_id : Nat
  file_offset : Nat
  file_size : Nat
deriving DecidableEq, Repr

def DrsTableEntry.new : DrsTableEntry :=
  { file_id := 0, file_offset := 0, file_size := 0 }

/-- Model of `DrsTableEntry::read_from_file`: one fixed 12-byte record. -/
def DrsTableEntry.read_from_file (s : ByteStream) :
    DrsOutcome (DrsTableEntry × ByteStream) :=
  (read_u32 s).bind fun fid =>
  (read_u32 fid.2).bind fun foff =>
  (read_u32 foff.2).bind fun fsz =>
  .ok ({ file_id := fid.1, file_offset := foff.1, file_size := fsz.1 }, fsz.2)

/-- Rust's `HashMap<u32, usize>` modelled as an association list; only `insert`
and `get` are used.  `insert` replaces the value of an existing key. -/
def insertAssoc : List (Nat × Nat) → Nat → Nat → List (Nat × Nat)
  | [], k, v => [(k, v)]
  | kv :: rest, k, v =>
    if kv.1 = k then (k, v) :: rest else kv :: insertAssoc rest k v

def getAssoc : List (Nat × Nat) → Nat → Option Nat
  | [], _ => none
  | kv :: rest, k => if kv.1 = k then some kv.2 else getAssoc rest k

structure DrsLogicalTable where
  header : DrsTableHeader
  entries : List DrsTableEntry
  contents : List (List Nat)
  index_map : List (Nat × Nat)
deriving DecidableEq, Repr

def DrsLogicalTable.new : DrsLogicalTable :=
  { header := DrsTableHeader.new, entries := [], contents := [], index_map := [] }

/-- Model of `DrsLogicalTable::find_file_contents`: look the id up in the index
map and return the content at that position.  (The Rust code indexes
`self.contents[*index]`; for tables built by the loader the index is
always in bounds, so `getD` returns the same buffer.) -/
def DrsLogicalTable.find_file_contents (t : DrsLogicalTable) (file_id : Nat) :
    Option (List Nat) :=
  match getAssoc t.index_map file_id with
  | some index => some (t.contents.getD index [])
  | none => none

/-- The loop body of `populate_index_map`: insert `(entries[i].file_id, i)`
for `i` counting up from the given start index. -/
def populateLoop : List DrsTableEntry → Nat → List (Nat × Nat) → List (Nat × Nat)
  | [], _, m => m
  | e :: rest, i, m => populateLoop rest (i + 1) (insertAssoc m e.file_id i)

def DrsLogicalTable.populate_index_map (t : DrsLogicalTable) : DrsLogicalTable :=
  { t with index_map := populateLoop t.entries 0 t.index_map }

structure DrsFile where
  header : DrsHeader
  tables : List DrsLogicalTable
deriving DecidableEq, Repr

def DrsFile.empty : DrsFile :=
  { header := DrsHeader.empty, tables := [] }

/-- Model of `DrsFile::find_table`: first table of the requested type. -/
def DrsFile.find_table (f : DrsFile) (file_type : DrsFileType) :
    Option DrsLogicalTable :=
  f.tables.find? (fun t => t.header.file_type = file_type)

/-- Loop of `DrsFile::read_table_headers`: push one fresh table per
declared table, reading its 12-byte header. -/
def readTableHeadersLoop : Nat → ByteStream →
    DrsOutcome (List DrsLogicalTable × ByteStream)
  | 0, s => .ok ([], s)
  | n + 1, s =>
    (DrsTableHeader.read_from_file s).bind fun h =>
    (readTableHeadersLoop n h.2).bind fun ts =>
    .ok ({ DrsLogicalTable.new with header := h.1 } :: ts.1, ts.2)

/-- Inner loop of `DrsFile::read_file_entry_headers`: `file_count`
12-byte entry records. -/
def readEntriesLoop : Nat → ByteStream →
    DrsOutcome (List DrsTableEntry × ByteStream)
  | 0, s => .ok ([], s)
  | n + 1, s =>
    (DrsTableEntry.read_from_file s).bind fun e =>
    (readEntriesLoop n e.2).bind fun es =>
    .ok (e.1 :: es.1, es.2)

/-- Model of `DrsFile::read_file_entry_headers`: for each table in declared order,
read `file_count` entries and push them onto that table. -/
def readEntryPhase : List DrsLogicalTable → ByteStream →
    DrsOutcome (List DrsLogicalTable × ByteStream)
  | [], s => .ok ([], s)
  | t :: ts, s =>
    (readEntriesLoop t.header.file_count s).bind fun es =>
    (readEntryPhase ts es.2).bind fun ts2 =>
    .ok ({ t with entries := t.entries ++ es.1 } :: ts2.1, ts2.2)

/-- Inner loop of `DrsFile::read_file_contents`: for each declared size,
read exactly that many bytes into an owned buffer. -/
def readBuffersLoop : List Nat → ByteStream →
    DrsOutcome (List (List Nat) × ByteStream)
  | [], s => .ok ([], s)
  | sz :: sizes, s =>
    (readExact sz s).bind fun b =>
    (readBuffersLoop sizes b.2).bind fun bs =>
    .ok (b.1 :: bs.1, bs.2)

/-- Model of `DrsFile::read_file_contents`: for each table in declared order, read
one buffer per entry (sizes taken from the entries) and push them onto
that table. -/
def readContentsPhase : List DrsLogicalTable → ByteStream →
    DrsOutcome (List DrsLogicalTable × ByteStream)
  | [], s => .ok ([], s)
  | t :: ts, s =>
    (readBuffersLoop (t.entries.map (fun e => e.file_size)) s).bind fun bs =>
    (readContentsPhase ts bs.2).bind fun ts2 =>
    .ok ({ t with contents := t.contents ++ bs.1 } :: ts2.1, ts2.2)

/-- Model of `DrsFile::read_from_file`: header, table headers, entry headers,
contents, then populate every table's index map. -/
def DrsFile.read_from_file (data : List Nat) (file_name : String) :
    DrsOutcome DrsFile :=
  (DrsHeader.read_from_file data file_name).bind fun hs =>
  (readTableHeadersLoop hs.1.table_count hs.2).bind fun ts1 =>
  (readEntryPhase ts1.1 ts1.2).bind fun ts2 =>
  (readContentsPhase ts2.1 ts2.2).bind fun ts3 =>
  .ok { header := hs.1, tables := ts3.1.map DrsLogicalTable.populate_index_map }

/-! Layout description functions: the values the decoding loops are
proved to produce, expressed directly as slices of the input bytes. -/

/-- The entry record decoded from the 12 bytes at offset `p`. -/
def entryAt (data : List Nat) (p : Nat) : DrsTableEntry :=
  { file_id := u32le (sliceAt data p 4)
    file_offset := u32le (sliceAt data (p + 4) 4)
    file_size := u32le (sliceAt data (p + 8) 4) }

/-- A run of `n` consecutive 12-byte entry records starting at offset `p`. -/
def entryListAt (data : List Nat) (p : Nat) : Nat → List DrsTableEntry
  | 0 => []
  | n + 1 => entryAt data p :: entryListAt data (p + 12) n

/-- Consecutive buffers of the given sizes starting at offset `p`. -/
def bufListAt (data : List Nat) (p : Nat) : List Nat → List (List Nat)
  | [] => []
  | sz :: sizes => sliceAt data p sz :: bufListAt data (p + sz) sizes

/-- The declared content sizes of a table, in entry order. -/
def tableSizes (t : DrsLogicalTable) : List Nat :=
  t.entries.map (fun e => e.file_size)

/-- Total number of entry records declared by a table list. -/
def totalEntryCount (ts : List DrsLogicalTable) : Nat :=
  (ts.map (fun t => t.header.file_count)).sum

/-- Total number of content bytes declared by a table list. -/
def totalContentSize (ts : List DrsLogicalTable) : Nat :=
  (ts.map (fun t => (tableSizes t).sum)).sum

/-- Result of the entry phase on a table list, described directly:
each table receives its `file_count` records, read consecutively from
offset `p` in table order. -/
def attachEntriesAt (data : List Nat) (p : Nat) : List DrsLogicalTable → List DrsLogicalTable
  | [] => []
  | t :: ts =>
    { t with entries := t.entries ++ entryListAt data p t.header.file_count } ::
      attachEntriesAt data (p + 12 * t.header.file_count) ts

/-- Result of the content phase on a table list, described directly:
each table receives one buffer per entry, read consecutively from
offset `p` in table-then-entry order. -/
def attachContentsAt (data : List Nat) (p : Nat) : List DrsLogicalTable → List DrsLogicalTable
  | [] => []
  | t :: ts =>
    { t with contents := t.contents ++ bufListAt data p (tableSizes t) } ::
      attachContentsAt data (p + (tableSizes t).sum) ts

/-- A table as produced by `read_table_headers`: nothing but the header
is populated yet. -/
def freshTable (t : DrsLogicalTable) : Prop :=
  t.entries = [] ∧ t.contents = [] ∧ t.index_map = []

/-- A fully populated archive: as many tables as the header declares,
and every table carries exactly `file_count` entries and `file_count`
content buffers. -/
def fullyPopulated (a : DrsFile) : Prop :=
  a.tables.length = a.header.table_count ∧
  ∀ t ∈ a.tables, t.entries.length = t.header.file_count ∧
    t.contents.length = t.header.file_count

/-! Concrete archives used to instantiate the theorems. -/

/-- A well-formed AOE header block (64 bytes): copyright literal padded
to 40 bytes, version `"1.00"`, type `"tribe"` padded to 12 bytes, the
given table count, and a `file_offset` of 0. -/
def aoeHeaderBytes (tableCount : Nat) : List Nat :=
  EXPECTED_AOE_COPYRIGHT ++ [0, 0, 0] ++ strBytes "1.00" ++
    (strBytes "tribe" ++ List.replicate 7 0) ++
    [tableCount, 0, 0, 0] ++ [0, 0, 0, 0]

/-- A 12-byte entry record with single-byte id, offset and size fields. -/
def entryBytes (id off sz : Nat) : List Nat :=
  [id, 0, 0, 0] ++ [off, 0, 0, 0] ++ [sz, 0, 0, 0]

/-- A valid 130-byte AOE archive: two tables (`bina` with 3 entries -
two of them sharing id 7 - and `wav ` with 0 entries), contents
`[10]`, `[11, 12]`, `[13, 14, 15]`. -/
def exData : List Nat :=
  aoeHeaderBytes 2 ++
  ([0x61, 0x6E, 0x69, 0x62] ++ [0, 0, 0, 0] ++ [3, 0, 0, 0]) ++
  ([0x20, 0x76, 0x61, 0x77] ++ [0, 0, 0, 0] ++ [0, 0, 0, 0]) ++
  entryBytes 7 0 1 ++ entryBytes 8 0 2 ++ entryBytes 7 0 3 ++
  [10] ++ [11, 12] ++ [13, 14, 15]

/-- The archive decoded from `exData`. -/
def exArchive : DrsFile :=
  (DrsFile.read_from_file exData "ex.drs").getOk DrsFile.empty

/-- A valid AOE header declaring one table, followed by a table header
whose file-type tag `0x64636261` (bytes `"abcd"`) is not a known type. -/
def unknownTagData : List Nat :=
  aoeHeaderBytes 1 ++ [0x61, 0x62, 0x63, 0x64]

/-- An input of 68 bytes whose discriminator bytes at offset 64 are `[0xFF, 0, 0, 0]`,
which is not valid UTF-8. -/
def nonUtf8Data : List Nat :=
  List.replicate 64 0 ++ [0xFF, 0, 0, 0]

/-- An input of 68 bytes whose discriminator bytes at offset 64 are `[0xC0, 0, 0, 0]`,
also not valid UTF-8 (overlong lead byte). -/
def nonUtf8Data2 : List Nat :=
  List.replicate 64 0 ++ [0xC0, 0, 0, 0]

/-- Truncation of `exData` to 128 bytes: the final content buffer (3 bytes)
no longer fits, so content extraction hits a short read. -/
def truncatedData : List Nat :=
  exData.take 128

/-- The header value and stream produced by the header phase on
`truncatedData` (used to state that the load reaches content
extraction before failing). -/
def truncHeaderOut : DrsHeader × ByteStream :=
  (DrsHeader.read_from_file truncatedData "trunc.drs").getOk (DrsHeader.empty, ⟨[], 0⟩)

/-- Tables and stream after the table-header phase on `truncatedData`. -/
def truncTablesOut : List DrsLogicalTable × ByteStream :=
  (readTableHeadersLoop truncHeaderOut.1.table_count truncHeaderOut.2).getOk ([], ⟨[], 0⟩)

/-- Tables and stream after the entry phase on `truncatedData`. -/
def truncEntriesOut : List DrsLogicalTable × ByteStream :=
  (readEntryPhase truncTablesOut.1 truncTablesOut.2).getOk ([], ⟨[], 0⟩)

/-- The header value and stream produced by the header phase on
`unknownTagData` (the header itself is valid AOE; the panic happens in
the table-header phase). -/
def unknownHeaderOut : DrsHeader × ByteStream :=
  (DrsHeader.read_from_file unknownTagData "u.drs").getOk (DrsHeader.empty, ⟨[], 0⟩)

/-- An input of 68 zero bytes: the discriminator bytes at offset 64 are `[0,0,0,0]`,
valid UTF-8 text that does not trim to `"swbg"`. -/
def asciiDiscData : List Nat :=
  List.replicate 68 0

/-- The declared sizes of `c` consecutive entry records at offset `p`. -/
def sizesAt (data : List Nat) (p c : Nat) : List Nat :=
  (entryListAt data p c).map (fun e => e.file_size)

/-- The table a successful load produces from a header `t.header`, with
its entry directory at offset `p` and its content run at offset `q`. -/
def buildOne (data : List Nat) (p q : Nat) (t : DrsLogicalTable) : DrsLogicalTable :=
  { header := t.header
    entries := entryListAt data p t.header.file_count
    contents := bufListAt data q (sizesAt data p t.header.file_count)
    index_map := populateLoop (entryListAt data p t.header.file_count) 0 [] }

/-- The table list a successful load produces: entry directories are
consecutive 12-byte records from offset `p` in table order, and all
content buffers are consecutive from offset `q` in table-then-entry
order. -/
def builtTables (data : List Nat) (p q : Nat) : List DrsLogicalTable → List DrsLogicalTable
  | [] => []
  | t :: ts =>
    buildOne data p q t ::
      builtTables data (p + 12 * t.header.file_count)
        (q + (sizesAt data p t.header.file_count).sum) ts

/-- Total content bytes declared by the first `k` tables, with entry
directories starting at offset `p`. -/
def sizesBefore (data : List Nat) (p : Nat) : List DrsLogicalTable → Nat → Nat
  | _, 0 => 0
  | [], _ + 1 => 0
  | t :: ts, k + 1 =>
    (sizesAt data p t.header.file_count).sum +
      sizesBefore data (p + 12 * t.header.file_count) ts k

/-! Basic lemmas about the outcome type and the read primitives. -/

theorem DrsOutcome.ok_bind {α β : Type} (a : α) (f : α → DrsOutcome β) :
    (DrsOutcome.ok a).bind f = f a := rfl

theorem DrsOutcome.err_bind {α β : Type} (e : DrsError) (f : α → DrsOutcome β) :
    (DrsOutcome.err e).bind f = .err e := rfl

theorem DrsOutcome.panicked_bind {α β : Type} (p : DrsPanic) (f : α → DrsOutcome β) :
    (DrsOutcome.panicked p).bind f = .panicked p := rfl

theorem DrsOutcome.bind_eq_ok {α β : Type} {x : DrsOutcome α} {f : α → DrsOutcome β}
    {b : β} (h : x.bind f = .ok b) : ∃ a, x = .ok a ∧ f a = .ok b := by
  cases x with
  | ok a => exact ⟨a, rfl, h⟩
  | err e => simp [DrsOutcome.bind] at h
  | panicked p => simp [DrsOutcome.bind] at h

theorem sliceAt_length {data : List Nat} {off n : Nat} (h : off + n ≤ data.length) :
    (sliceAt data off n).length = n := by
  simp only [sliceAt, List.length_take, List.length_drop]
  omega

theorem read_u32_eq (s : ByteStream) :
    read_u32 s = if s.pos + 4 ≤ s.data.length
      then .ok (u32le (sliceAt s.data s.pos 4), ⟨s.data, s.pos + 4⟩)
      else .err .ioError := by
  simp only [read_u32, readExact]
  split <;> rfl

theorem read_u32_ne_panicked (s : ByteStream) (p : DrsPanic) :
    read_u32 s ≠ .panicked p := by
  rw [read_u32_eq]
  split <;> simp

theorem DrsTableEntry.read_from_file_eq (s : ByteStream) :
    DrsTableEntry.read_from_file s = if s.pos + 12 ≤ s.data.length
      then .ok (entryAt s.data s.pos, ⟨s.data, s.pos + 12⟩)
      else .err .ioError := by
  obtain ⟨data, pos⟩ := s
  simp only [DrsTableEntry.read_from_file, read_u32_eq]
  by_cases h : pos + 12 ≤ data.length
  · rw [if_pos (show pos + 4 ≤ data.length by omega)]
    simp only [DrsOutcome.ok_bind]
    rw [if_pos (show pos + 4 + 4 ≤ data.length by omega)]
    simp only [DrsOutcome.ok_bind]
    rw [if_pos (show pos + 4 + 4 + 4 ≤ data.length by omega)]
    simp only [DrsOutcome.ok_bind]
    rw [if_pos (show pos + 12 ≤ data.length from h)]
    have e8 : pos + 4 + 4 = pos + 8 := by omega
    have e12 : pos + 4 + 4 + 4 = pos + 12 := by omega
    simp [entryAt, e8, e12]
  · rw [if_neg (show ¬ pos + 12 ≤ data.length from h)]
    by_cases h1 : pos + 4 ≤ data.length
    · rw [if_pos h1]
      simp only [DrsOutcome.ok_bind]
      by_cases h2 : pos + 4 + 4 ≤ data.length
      · rw [if_pos h2]
        simp only [DrsOutcome.ok_bind]
        rw [if_neg (show ¬ pos + 4 + 4 + 4 ≤ data.length by omega)]
        rfl
      · rw [if_neg h2]
        rfl
    · rw [if_neg h1]
      rfl

theorem totalEntryCount_cons (t : DrsLogicalTable) (ts : List DrsLogicalTable) :
    totalEntryCount (t :: ts) = t.header.file_count + totalEntryCount ts := by
  simp [totalEntryCount]

theorem totalContentSize_cons (t : DrsLogicalTable) (ts : List DrsLogicalTable) :
    totalContentSize (t :: ts) = (tableSizes t).sum + totalContentSize ts := by
  simp [totalContentSize]

theorem readEntriesLoop_eq (n : Nat) : ∀ s : ByteStream, s.pos ≤ s.data.length →
    readEntriesLoop n s = if s.pos + 12 * n ≤ s.data.length
      then .ok (entryListAt s.data s.pos n, ⟨s.data, s.pos + 12 * n⟩)
      else .err .ioError := by
  induction n with
  | zero =>
    intro s h
    rw [if_pos (by omega)]
    simp [readEntriesLoop, entryListAt]
  | succ n ih =>
    intro s h
    simp only [readEntriesLoop, DrsTableEntry.read_from_file_eq]
    by_cases h12 : s.pos + 12 ≤ s.data.length
    · rw [if_pos h12]
      simp only [DrsOutcome.ok_bind]
      rw [ih ⟨s.data, s.pos + 12⟩ h12]
      by_cases hr : s.pos + 12 + 12 * n ≤ s.data.length
      · rw [if_pos hr, if_pos (show s.pos + 12 * (n + 1) ≤ s.data.length by omega)]
        simp only [DrsOutcome.ok_bind]
        have harith : s.pos + 12 + 12 * n = s.pos + 12 * (n + 1) := by omega
        simp [entryListAt, harith]
      · rw [if_neg hr, if_neg (show ¬ s.pos + 12 * (n + 1) ≤ s.data.length by omega)]
        rfl
    · rw [if_neg h12, if_neg (show ¬ s.pos + 12 * (n + 1) ≤ s.data.length by omega)]
      rfl

theorem readBuffersLoop_eq (sizes : List Nat) : ∀ s : ByteStream, s.pos ≤ s.data.length →
    readBuffersLoop sizes s = if s.pos + sizes.sum ≤ s.data.length
      then .ok (bufListAt s.data s.pos sizes, ⟨s.data, s.pos + sizes.sum⟩)
      else .err .ioError := by
  induction sizes with
  | nil =>
    intro s h
    rw [if_pos (by simpa using h)]
    simp [readBuffersLoop, bufListAt]
  | cons sz sizes ih =>
    intro s h
    simp only [readBuffersLoop, readExact]
    by_cases hsz : s.pos + sz ≤ s.data.length
    · rw [if_pos hsz]
      simp only [DrsOutcome.ok_bind]
      rw [ih ⟨s.data, s.pos + sz⟩ hsz]
      by_cases hr : s.pos + sz + sizes.sum ≤ s.data.length
      · rw [if_pos hr, if_pos (show s.pos + (sz :: sizes).sum ≤ s.data.length by
          simp only [List.sum_cons]; omega)]
        simp only [DrsOutcome.ok_bind]
        have harith : s.pos + sz + sizes.sum = s.pos + (sz :: sizes).sum := by
          simp only [List.sum_cons]; omega
        simp [bufListAt, harith]
      · rw [if_neg hr, if_neg (show ¬ s.pos + (sz :: sizes).sum ≤ s.data.length by
          simp only [List.sum_cons]; omega)]
        rfl
    · rw [if_neg hsz, if_neg (show ¬ s.pos + (sz :: sizes).sum ≤ s.data.length by
        simp only [List.sum_cons]; omega)]
      rfl

theorem readEntryPhase_eq (ts : List DrsLogicalTable) : ∀ s : ByteStream,
    s.pos ≤ s.data.length →
    readEntryPhase ts s = if s.pos + 12 * totalEntryCount ts ≤ s.data.length
      then .ok (attachEntriesAt s.data s.pos ts, ⟨s.data, s.pos + 12 * totalEntryCount ts⟩)
      else .err .ioError := by
  induction ts with
  | nil =>
    intro s h
    rw [if_pos (by simp [totalEntryCount]; omega)]
    simp [readEntryPhase, attachEntriesAt, totalEntryCount]
  | cons t ts ih =>
    intro s h
    simp only [readEntryPhase, readEntriesLoop_eq t.header.file_count s h]
    by_cases hc : s.pos + 12 * t.header.file_count ≤ s.data.length
    · rw [if_pos hc]
      simp only [DrsOutcome.ok_bind]
      rw [ih ⟨s.data, s.pos + 12 * t.header.file_count⟩ hc]
      by_cases hr : s.pos + 12 * t.header.file_count + 12 * totalEntryCount ts ≤ s.data.length
      · rw [if_pos hr, if_pos (show s.pos + 12 * totalEntryCount (t :: ts) ≤ s.data.length by
          rw [totalEntryCount_cons]; omega)]
        simp only [DrsOutcome.ok_bind]
        have harith : s.pos + 12 * t.header.file_count + 12 * totalEntryCount ts =
            s.pos + 12 * totalEntryCount (t :: ts) := by
          rw [totalEntryCount_cons]; omega
        simp [attachEntriesAt, harith]
      · rw [if_neg hr, if_neg (show ¬ s.pos + 12 * totalEntryCount (t :: ts) ≤ s.data.length by
          rw [totalEntryCount_cons]; omega)]
        rfl
    · rw [if_neg hc, if_neg (show ¬ s.pos + 12 * totalEntryCount (t :: ts) ≤ s.data.length by
        rw [totalEntryCount_cons]; omega)]
      rfl

theorem readContentsPhase_eq (ts : List DrsLogicalTable) : ∀ s : ByteStream,
    s.pos ≤ s.data.length →
    readContentsPhase ts s = if s.pos + totalContentSize ts ≤ s.data.length
      then .ok (attachContentsAt s.data s.pos ts, ⟨s.data, s.pos + totalContentSize ts⟩)
      else .err .ioError := by
  induction ts with
  | nil =>
    intro s h
    rw [if_pos (by simp [totalContentSize]; omega)]
    simp [readContentsPhase, attachContentsAt, totalContentSize]
  | cons t ts ih =>
    intro s h
    simp only [readContentsPhase]
    rw [show List.map (fun e => e.file_size) t.entries = tableSizes t from rfl]
    rw [readBuffersLoop_eq (tableSizes t) s h]
    by_cases hc : s.pos + (tableSizes t).sum ≤ s.data.length
    · rw [if_pos hc]
      simp only [DrsOutcome.ok_bind]
      rw [ih ⟨s.data, s.pos + (tableSizes t).sum⟩ hc]
      by_cases hr : s.pos + (tableSizes t).sum + totalContentSize ts ≤ s.data.length
      · rw [if_pos hr, if_pos (show s.pos + totalContentSize (t :: ts) ≤ s.data.length by
          rw [totalContentSize_cons]; omega)]
        simp only [DrsOutcome.ok_bind]
        have harith : s.pos + (tableSizes t).sum + totalContentSize ts =
            s.pos + totalContentSize (t :: ts) := by
          rw [totalContentSize_cons]; omega
        simp [attachContentsAt, harith]
      · rw [if_neg hr, if_neg (show ¬ s.pos + totalContentSize (t :: ts) ≤ s.data.length by
          rw [totalContentSize_cons]; omega)]
        rfl
    · rw [if_neg hc, if_neg (show ¬ s.pos + totalContentSize (t :: ts) ≤ s.data.length by
        rw [totalContentSize_cons]; omega)]
      rfl

theorem readExact_ok {n : Nat} {s : ByteStream} {r : List Nat × ByteStream}
    (h : readExact n s = .ok r) :
    r = (sliceAt s.data s.pos n, ⟨s.data, s.pos + n⟩) ∧ s.pos + n ≤ s.data.length := by
  unfold readExact at h
  split at h
  · cases h
    exact ⟨rfl, by assumption⟩
  · cases h

theorem read_u32_ok {s : ByteStream} {r : Nat × ByteStream} (h : read_u32 s = .ok r) :
    r = (u32le (sliceAt s.data s.pos 4), ⟨s.data, s.pos + 4⟩) ∧ s.pos + 4 ≤ s.data.length := by
  rw [read_u32_eq] at h
  split at h
  · cases h
    exact ⟨rfl, by assumption⟩
  · cases h

theorem DrsFileType.from_u32_panicked {v : Nat} {p : DrsPanic}
    (h : DrsFileType.from_u32 v = .panicked p) :
    p = .unknownFileType v ∧ v ≠ 0x62696E61 ∧ v ≠ 0x736C7020 ∧
      v ≠ 0x73687020 ∧ v ≠ 0x77617620 := by
  unfold DrsFileType.from_u32 at h
  split_ifs at h with h1 h2 h3 h4
  cases h
  exact ⟨rfl, h1, h2, h3, h4⟩

theorem drsTableHeaderRead_ok {s : ByteStream}
    {r : DrsTableHeader × ByteStream} (h : DrsTableHeader.read_from_file s = .ok r) :
    r.2 = ⟨s.data, s.pos + 12⟩ ∧ s.pos + 12 ≤ s.data.length := by
  unfold DrsTableHeader.read_from_file at h
  obtain ⟨ft, hft, h⟩ := DrsOutcome.bind_eq_ok h
  obtain ⟨hfte, hftb⟩ := read_u32_ok hft
  subst hfte
  obtain ⟨t, _, h⟩ := DrsOutcome.bind_eq_ok h
  obtain ⟨toff, htoff, h⟩ := DrsOutcome.bind_eq_ok h
  obtain ⟨htoffe, _⟩ := read_u32_ok htoff
  subst htoffe
  obtain ⟨fc, hfc, h⟩ := DrsOutcome.bind_eq_ok h
  obtain ⟨hfce, hfcb⟩ := read_u32_ok hfc
  subst hfce
  cases h
  refine ⟨rfl, ?_⟩
  simp only at hfcb
  omega

theorem DrsTableHeader.read_from_file_panicked {s : ByteStream} {p : DrsPanic}
    (h : DrsTableHeader.read_from_file s = .panicked p) :
    ∃ raw, p = .unknownFileType raw ∧ raw ≠ 0x62696E61 ∧ raw ≠ 0x736C7020 ∧
      raw ≠ 0x73687020 ∧ raw ≠ 0x77617620 := by
  unfold DrsTableHeader.read_from_file at h
  rw [read_u32_eq] at h
  by_cases h4 : s.pos + 4 ≤ s.data.length
  · rw [if_pos h4] at h
    simp only [DrsOutcome.ok_bind] at h
    cases hft : DrsFileType.from_u32 (u32le (sliceAt s.data s.pos 4)) with
    | ok t =>
      rw [hft] at h
      simp only [DrsOutcome.ok_bind] at h
      rw [read_u32_eq] at h
      by_cases h8 : s.pos + 4 + 4 ≤ s.data.length
      · rw [if_pos h8] at h
        simp only [DrsOutcome.ok_bind] at h
        rw [read_u32_eq] at h
        by_cases h12 : s.pos + 4 + 4 + 4 ≤ s.data.length
        · rw [if_pos h12] at h
          simp only [DrsOutcome.ok_bind] at h
          cases h
        · rw [if_neg h12] at h
          cases h
      · rw [if_neg h8] at h
        cases h
    | err e =>
      rw [hft] at h
      cases h
    | panicked q =>
      rw [hft] at h
      simp only [DrsOutcome.panicked_bind] at h
      cases h
      exact ⟨u32le (sliceAt s.data s.pos 4), DrsFileType.from_u32_panicked hft⟩
  · rw [if_neg h4] at h
    cases h

theorem readTableHeadersLoop_ok (n : Nat) : ∀ (s : ByteStream)
    (r : List DrsLogicalTable × ByteStream), readTableHeadersLoop n s = .ok r →
    r.1.length = n ∧ r.2 = ⟨s.data, s.pos + 12 * n⟩ ∧
      (∀ t ∈ r.1, freshTable t) ∧ (s.pos ≤ s.data.length → r.2.pos ≤ s.data.length) := by
  induction n with
  | zero =>
    intro s r h
    simp only [readTableHeadersLoop] at h
    cases h
    refine ⟨rfl, by simp, by simp, fun hh => by simpa using hh⟩
  | succ n ih =>
    intro s r h
    simp only [readTableHeadersLoop] at h
    obtain ⟨hd, hhd, h⟩ := DrsOutcome.bind_eq_ok h
    obtain ⟨hhde, hhdb⟩ := drsTableHeaderRead_ok hhd
    obtain ⟨ts, hts, h⟩ := DrsOutcome.bind_eq_ok h
    obtain ⟨hlen, hpos, hfresh, hbound⟩ := ih hd.2 ts hts
    cases h
    rw [hhde] at hpos hbound
    simp only at hpos hbound
    refine ⟨by simp [hlen], ?_, ?_, fun _ => ?_⟩
    · rw [hpos]
      have : s.pos + 12 + 12 * n = s.pos + 12 * (n + 1) := by omega
      rw [this]
    · intro t ht
      rcases List.mem_cons.mp ht with h1 | h2
      · subst h1
        exact ⟨rfl, rfl, rfl⟩
      · exact hfresh t h2
    · have hb := hbound hhdb
      rw [hpos] at hb
      rw [hpos]
      simpa using hb

theorem readTableHeadersLoop_panicked (n : Nat) : ∀ (s : ByteStream) (p : DrsPanic),
    readTableHeadersLoop n s = .panicked p →
    ∃ raw, p = .unknownFileType raw ∧ raw ≠ 0x62696E61 ∧ raw ≠ 0x736C7020 ∧
      raw ≠ 0x73687020 ∧ raw ≠ 0x77617620 := by
  induction n with
  | zero =>
    intro s p h
    simp only [readTableHeadersLoop] at h
    cases h
  | succ n ih =>
    intro s p h
    simp only [readTableHeadersLoop] at h
    cases hhd : DrsTableHeader.read_from_file s with
    | ok hd =>
      rw [hhd] at h
      simp only [DrsOutcome.ok_bind] at h
      cases hts : readTableHeadersLoop n hd.2 with
      | ok ts =>
        rw [hts] at h
        simp only [DrsOutcome.ok_bind] at h
        cases h
      | err e =>
        rw [hts] at h
        cases h
      | panicked q =>
        rw [hts] at h
        simp only [DrsOutcome.panicked_bind] at h
        cases h
        exact ih hd.2 p hts
    | err e =>
      rw [hhd] at h
      cases h
    | panicked q =>
      rw [hhd] at h
      simp only [DrsOutcome.panicked_bind] at h
      cases h
      exact DrsTableHeader.read_from_file_panicked hhd

theorem parseVariantHeader_ok {gt : DrsGameType} {s : ByteStream} {name : String}
    {r : DrsHeader × ByteStream} (h : parseVariantHeader gt s name = .ok r) :
    r.2.data = s.data ∧ r.2.pos ≤ s.data.length ∧ r.1.game_type = gt := by
  unfold parseVariantHeader at h
  obtain ⟨cb, hcb, h⟩ := DrsOutcome.bind_eq_ok h
  obtain ⟨hcbe, _⟩ := readExact_ok hcb
  subst hcbe
  obtain ⟨vb, hvb, h⟩ := DrsOutcome.bind_eq_ok h
  obtain ⟨hvbe, _⟩ := readExact_ok hvb
  subst hvbe
  obtain ⟨tb, htb, h⟩ := DrsOutcome.bind_eq_ok h
  obtain ⟨htbe, _⟩ := readExact_ok htb
  subst htbe
  obtain ⟨tc, htc, h⟩ := DrsOutcome.bind_eq_ok h
  obtain ⟨htce, _⟩ := read_u32_ok htc
  subst htce
  obtain ⟨fo, hfo, h⟩ := DrsOutcome.bind_eq_ok h
  obtain ⟨hfoe, hfob⟩ := read_u32_ok hfo
  subst hfoe
  obtain ⟨u, _, h⟩ := DrsOutcome.bind_eq_ok h
  cases h
  exact ⟨rfl, hfob, by cases gt <;> rfl⟩

theorem drsHeaderRead_ok {data : List Nat} {name : String}
    {r : DrsHeader × ByteStream} (h : DrsHeader.read_from_file data name = .ok r) :
    r.2.data = data ∧ r.2.pos ≤ data.length := by
  unfold DrsHeader.read_from_file at h
  obtain ⟨tb, htb, h⟩ := DrsOutcome.bind_eq_ok h
  cases hu : utf8Decode tb.1 with
  | none =>
    rw [hu] at h
    cases h
  | some cps =>
    rw [hu] at h
    have hp := parseVariantHeader_ok h
    exact ⟨hp.1, hp.2.1⟩

theorem built_eq (data : List Nat) (ts : List DrsLogicalTable) : ∀ p q : Nat,
    (∀ t ∈ ts, freshTable t) →
    (attachContentsAt data q (attachEntriesAt data p ts)).map
        DrsLogicalTable.populate_index_map = builtTables data p q ts := by
  induction ts with
  | nil =>
    intro p q _
    rfl
  | cons t ts ih =>
    intro p q hfresh
    obtain ⟨he, hc, hm⟩ := hfresh t (List.mem_cons_self t ts)
    have htail := ih (p + 12 * t.header.file_count)
      (q + (sizesAt data p t.header.file_count).sum)
      (fun t' ht' => hfresh t' (List.mem_cons_of_mem _ ht'))
    have hsz : tableSizes
        { t with entries := t.entries ++ entryListAt data p t.header.file_count } =
        sizesAt data p t.header.file_count := by
      simp [tableSizes, sizesAt, he]
    simp only [attachEntriesAt, attachContentsAt, List.map_cons, builtTables]
    rw [hsz, htail]
    simp [DrsLogicalTable.populate_index_map, buildOne, he, hc, hm]

theorem builtTables_length (data : List Nat) (ts : List DrsLogicalTable) : ∀ p q : Nat,
    (builtTables data p q ts).length = ts.length := by
  induction ts with
  | nil => intro p q; rfl
  | cons t ts ih =>
    intro p q
    simp [builtTables, ih]

theorem builtTables_headers (data : List Nat) (ts : List DrsLogicalTable) : ∀ p q : Nat,
    (builtTables data p q ts).map (fun t => t.header) = ts.map (fun t => t.header) := by
  induction ts with
  | nil => intro p q; rfl
  | cons t ts ih =>
    intro p q
    simp [builtTables, buildOne, ih]

theorem builtTables_congr (data : List Nat) (ts : List DrsLogicalTable) :
    ∀ (ts' : List DrsLogicalTable) (p q : Nat),
    ts.map (fun t => t.header) = ts'.map (fun t => t.header) →
    builtTables data p q ts = builtTables data p q ts' := by
  induction ts with
  | nil =>
    intro ts' p q hh
    cases ts' with
    | nil => rfl
    | cons t' ts' => simp at hh
  | cons t ts ih =>
    intro ts' p q hh
    cases ts' with
    | nil => simp at hh
    | cons t' ts' =>
      simp only [List.map_cons, List.cons.injEq] at hh
      obtain ⟨hhd, htl⟩ := hh
      simp only [builtTables, buildOne, hhd]
      rw [ih ts' _ _ htl]

theorem totalEntryCount_map_headers (ts ts' : List DrsLogicalTable)
    (hh : ts.map (fun t => t.header) = ts'.map (fun t => t.header)) :
    totalEntryCount ts = totalEntryCount ts' := by
  unfold totalEntryCount
  have h := congrArg (List.map (fun h : DrsTableHeader => h.file_count)) hh
  rw [List.map_map, List.map_map] at h
  exact congrArg List.sum h

theorem totalEntryCount_attach_populate (data : List Nat) (q : Nat)
    (ts : List DrsLogicalTable) :
    totalEntryCount ((attachContentsAt data q ts).map DrsLogicalTable.populate_index_map) =
      totalEntryCount ts := by
  apply totalEntryCount_map_headers
  induction ts generalizing q with
  | nil => rfl
  | cons t ts ih =>
    simp only [attachContentsAt, List.map_cons, DrsLogicalTable.populate_index_map]
    simp only [List.cons.injEq]
    exact ⟨trivial, ih _⟩

theorem totalContentSize_attach_populate (data : List Nat) (q : Nat)
    (ts : List DrsLogicalTable) :
    totalContentSize ((attachContentsAt data q ts).map DrsLogicalTable.populate_index_map) =
      totalContentSize ts := by
  induction ts generalizing q with
  | nil => rfl
  | cons t ts ih =>
    simp only [attachContentsAt, List.map_cons, DrsLogicalTable.populate_index_map]
    rw [totalContentSize_cons, totalContentSize_cons, ih]
    rfl

theorem load_ok_built {data : List Nat} {name : String} {a : DrsFile}
    (h : DrsFile.read_from_file data name = .ok a) :
    ∃ pt : Nat,
      a.tables.length = a.header.table_count ∧
      a.tables = builtTables data pt (pt + 12 * totalEntryCount a.tables) a.tables ∧
      pt + 12 * totalEntryCount a.tables + totalContentSize a.tables ≤ data.length := by
  unfold DrsFile.read_from_file at h
  obtain ⟨hs, hhs, h⟩ := DrsOutcome.bind_eq_ok h
  obtain ⟨hdata1, hpos1⟩ := drsHeaderRead_ok hhs
  obtain ⟨ts1p, hts1, h⟩ := DrsOutcome.bind_eq_ok h
  obtain ⟨hlen1, hs2, hfresh, hbound2⟩ := readTableHeadersLoop_ok _ _ _ hts1
  rw [hdata1] at hs2
  have hptle : ts1p.2.pos ≤ data.length := by
    have := hbound2 (by rw [hdata1]; exact hpos1)
    rw [hdata1] at this
    exact this
  obtain ⟨ts2p, hts2, h⟩ := DrsOutcome.bind_eq_ok h
  rw [readEntryPhase_eq ts1p.1 ts1p.2 (by rw [hs2]; rw [hs2] at hptle; exact hptle)] at hts2
  rw [hs2] at hts2
  simp only at hts2
  split at hts2
  case isFalse => cases hts2
  case isTrue hce =>
    cases hts2
    obtain ⟨ts3p, hts3, h⟩ := DrsOutcome.bind_eq_ok h
    rw [readContentsPhase_eq _ _ (by simp only; omega)] at hts3
    simp only at hts3
    split at hts3
    case isFalse => cases hts3
    case isTrue hcc =>
      cases hts3
      cases h
      dsimp only
      set pt := hs.2.pos + 12 * hs.1.table_count with hpt
      set ts1 := ts1p.1 with hts1d
      have hbuilt : (attachContentsAt data (pt + 12 * totalEntryCount ts1)
          (attachEntriesAt data pt ts1)).map DrsLogicalTable.populate_index_map =
          builtTables data pt (pt + 12 * totalEntryCount ts1) ts1 :=
        built_eq data ts1 pt _ hfresh
      have hheaders : (builtTables data pt (pt + 12 * totalEntryCount ts1) ts1).map
          (fun t => t.header) = ts1.map (fun t => t.header) :=
        builtTables_headers data ts1 _ _
      have hcount : totalEntryCount (builtTables data pt (pt + 12 * totalEntryCount ts1) ts1)
          = totalEntryCount ts1 :=
        totalEntryCount_map_headers _ _ hheaders
      refine ⟨pt, ?_, ?_, ?_⟩
      · rw [hbuilt, builtTables_length]
        exact hlen1
      · rw [show totalEntryCount ((attachContentsAt data (pt + 12 * totalEntryCount ts1)
            (attachEntriesAt data pt ts1)).map DrsLogicalTable.populate_index_map)
            = totalEntryCount ts1 from by rw [hbuilt]; exact hcount]
        rw [hbuilt]
        exact (builtTables_congr data
          (builtTables data pt (pt + 12 * totalEntryCount ts1) ts1) ts1 pt _ hheaders).symm
      · rw [show totalEntryCount ((attachContentsAt data (pt + 12 * totalEntryCount ts1)
            (attachEntriesAt data pt ts1)).map DrsLogicalTable.populate_index_map)
            = totalEntryCount ts1 from by rw [hbuilt]; exact hcount]
        rw [totalContentSize_attach_populate]
        omega

theorem entryListAt_length (data : List Nat) (c : Nat) : ∀ p : Nat,
    (entryListAt data p c).length = c := by
  induction c with
  | zero => intro p; rfl
  | succ c ih =>
    intro p
    simp [entryListAt, ih]

theorem bufListAt_length (data : List Nat) (sizes : List Nat) : ∀ p : Nat,
    (bufListAt data p sizes).length = sizes.length := by
  induction sizes with
  | nil => intro p; rfl
  | cons sz sizes ih =>
    intro p
    simp [bufListAt, ih]

theorem sizesAt_length (data : List Nat) (p c : Nat) : (sizesAt data p c).length = c := by
  simp [sizesAt, entryListAt_length]

theorem builtTables_getD (data : List Nat) (ts : List DrsLogicalTable) :
    ∀ (p q ti : Nat), ti < ts.length →
    (builtTables data p q ts).getD ti DrsLogicalTable.new =
      buildOne data (p + 12 * totalEntryCount (ts.take ti)) (q + sizesBefore data p ts ti)
        (ts.getD ti DrsLogicalTable.new) := by
  induction ts with
  | nil =>
    intro p q ti h
    simp at h
  | cons t ts ih =>
    intro p q ti h
    cases ti with
    | zero =>
      simp [builtTables, sizesBefore, totalEntryCount]
    | succ k =>
      have hk : k < ts.length := by simpa using h
      simp only [builtTables, List.getD_cons_succ, List.take_succ_cons]
      rw [ih _ _ k hk]
      rw [totalEntryCount_cons]
      have h1 : p + 12 * t.header.file_count + 12 * totalEntryCount (ts.take k) =
          p + 12 * (t.header.file_count + totalEntryCount (ts.take k)) := by omega
      have h2 : q + (sizesAt data p t.header.file_count).sum +
          sizesBefore data (p + 12 * t.header.file_count) ts k =
          q + sizesBefore data p (t :: ts) (k + 1) := by
        simp only [sizesBefore]
        omega
      rw [h1, h2]

theorem sizesBefore_eq_take (data : List Nat) (ts : List DrsLogicalTable) :
    ∀ (p q k : Nat),
    sizesBefore data p ts k = totalContentSize ((builtTables data p q ts).take k) := by
  induction ts with
  | nil =>
    intro p q k
    cases k <;> simp [sizesBefore, builtTables, totalContentSize]
  | cons t ts ih =>
    intro p q k
    cases k with
    | zero => simp [sizesBefore, totalContentSize]
    | succ k =>
      simp only [sizesBefore, builtTables, List.take_succ_cons]
      rw [totalContentSize_cons]
      rw [ih (p + 12 * t.header.file_count) (q + (sizesAt data p t.header.file_count).sum) k]
      have : tableSizes (buildOne data p q t) = sizesAt data p t.header.file_count := rfl
      rw [this]

theorem take_sum_getD_le (l : List Nat) : ∀ j : Nat, j < l.length →
    (l.take j).sum + l.getD j 0 ≤ l.sum := by
  induction l with
  | nil =>
    intro j h
    simp at h
  | cons x l ih =>
    intro j h
    cases j with
    | zero => simp
    | succ k =>
      have hk : k < l.length := by simpa using h
      simp only [List.take_succ_cons, List.sum_cons, List.getD_cons_succ]
      have := ih k hk
      omega

theorem getD_map_tableSizes (ts : List DrsLogicalTable) : ∀ ti : Nat, ti < ts.length →
    (ts.map (fun t => (tableSizes t).sum)).getD ti 0 =
      (tableSizes (ts.getD ti DrsLogicalTable.new)).sum := by
  induction ts with
  | nil =>
    intro ti h
    simp at h
  | cons t ts ih =>
    intro ti h
    cases ti with
    | zero => simp
    | succ k =>
      have hk : k < ts.length := by simpa using h
      simp only [List.map_cons, List.getD_cons_succ]
      exact ih k hk

theorem totalContentSize_take (ts : List DrsLogicalTable) : ∀ k : Nat,
    totalContentSize (ts.take k) = ((ts.map (fun t => (tableSizes t).sum)).take k).sum := by
  induction ts with
  | nil =>
    intro k
    cases k <;> simp [totalContentSize]
  | cons t ts ih =>
    intro k
    cases k with
    | zero => simp [totalContentSize]
    | succ k =>
      simp only [List.take_succ_cons, List.map_cons, List.sum_cons]
      rw [totalContentSize_cons, ih k]

theorem entry_sizes_getD (es : List DrsTableEntry) : ∀ j : Nat, j < es.length →
    (es.map (fun e => e.file_size)).getD j 0 =
      (es.getD j DrsTableEntry.new).file_size := by
  induction es with
  | nil =>
    intro j h
    simp at h
  | cons e es ih =>
    intro j h
    cases j with
    | zero => simp
    | succ k =>
      have hk : k < es.length := by simpa using h
      simp only [List.map_cons, List.getD_cons_succ]
      exact ih k hk

theorem bufListAt_getD (data : List Nat) (sizes : List Nat) : ∀ (q j : Nat),
    j < sizes.length →
    (bufListAt data q sizes).getD j [] =
      sliceAt data (q + (sizes.take j).sum) (sizes.getD j 0) := by
  induction sizes with
  | nil =>
    intro q j h
    simp at h
  | cons sz sizes ih =>
    intro q j h
    cases j with
    | zero => simp [bufListAt]
    | succ k =>
      have hk : k < sizes.length := by simpa using h
      simp only [bufListAt, List.getD_cons_succ, List.take_succ_cons, List.sum_cons]
      rw [ih (q + sz) k hk]
      have : q + sz + (sizes.take k).sum = q + (sz + (sizes.take k).sum) := by omega
      rw [this]

theorem getAssoc_insertAssoc (m : List (Nat × Nat)) : ∀ k v k' : Nat,
    getAssoc (insertAssoc m k v) k' = if k' = k then some v else getAssoc m k' := by
  induction m with
  | nil =>
    intro k v k'
    by_cases h : k = k'
    · subst h
      simp [insertAssoc, getAssoc]
    · simp only [insertAssoc, getAssoc]
      rw [if_neg h, if_neg (fun hh => h hh.symm)]
  | cons kv rest ih =>
    intro k v k'
    by_cases hk : kv.1 = k
    · simp only [insertAssoc, if_pos hk, getAssoc]
      by_cases h' : k = k'
      · subst h'
        simp
      · rw [if_neg h', if_neg (fun hh => h' hh.symm), if_neg (fun hh => h' (hk ▸ hh))]
    · simp only [insertAssoc, if_neg hk, getAssoc]
      by_cases h2 : kv.1 = k'
      · have hne : ¬ k' = k := fun hh => hk (hh ▸ h2)
        rw [if_pos h2, if_neg hne, if_pos h2]
      · rw [if_neg h2, ih k v k']
        by_cases h3 : k' = k
        · rw [if_pos h3, if_pos h3]
        · rw [if_neg h3, if_neg h3, if_neg h2]

theorem populateLoop_not_mem (id : Nat) (es : List DrsTableEntry) :
    ∀ (i : Nat) (m : List (Nat × Nat)),
    (∀ k : Nat, k < es.length → (es.getD k DrsTableEntry.new).file_id ≠ id) →
    getAssoc (populateLoop es i m) id = getAssoc m id := by
  induction es with
  | nil =>
    intro i m _
    rfl
  | cons e rest ih =>
    intro i m hno
    simp only [populateLoop]
    rw [ih (i + 1) (insertAssoc m e.file_id i)
      (fun k hk => hno (k + 1) (by simpa using hk))]
    rw [getAssoc_insertAssoc]
    rw [if_neg (fun hh => hno 0 (by simp) (by simpa using hh.symm))]

theorem populateLoop_last (es : List DrsTableEntry) : ∀ (i : Nat)
    (m : List (Nat × Nat)) (j : Nat), j < es.length →
    (∀ k : Nat, j < k → k < es.length →
      (es.getD k DrsTableEntry.new).file_id ≠ (es.getD j DrsTableEntry.new).file_id) →
    getAssoc (populateLoop es i m) ((es.getD j DrsTableEntry.new).file_id) =
      some (i + j) := by
  induction es with
  | nil =>
    intro i m j h _
    simp at h
  | cons e rest ih =>
    intro i m j hj hlast
    cases j with
    | zero =>
      simp only [populateLoop, List.getD_cons_zero]
      rw [populateLoop_not_mem e.file_id rest (i + 1) (insertAssoc m e.file_id i)
        (fun k hk => by
          have := hlast (k + 1) (by omega) (by simpa using hk)
          simpa using this)]
      rw [getAssoc_insertAssoc, if_pos rfl, Nat.add_zero]
    | succ j' =>
      have hj' : j' < rest.length := by simpa using hj
      simp only [populateLoop, List.getD_cons_succ]
      rw [ih (i + 1) (insertAssoc m e.file_id i) j' hj'
        (fun k hk1 hk2 => by
          have := hlast (k + 1) (by omega) (by simpa using hk2)
          simpa using this)]
      have : i + 1 + j' = i + (j' + 1) := by omega
      rw [this]

theorem load_ok_table {data : List Nat} {name : String} {a : DrsFile}
    (h : DrsFile.read_from_file data name = .ok a) {ti : Nat}
    (hti : ti < a.tables.length) :
    ∃ p q : Nat,
      a.tables.getD ti DrsLogicalTable.new =
        buildOne data p q (a.tables.getD ti DrsLogicalTable.new) ∧
      q + (sizesAt data p (a.tables.getD ti DrsLogicalTable.new).header.file_count).sum ≤
        data.length := by
  obtain ⟨pt, hlen, heq, hbound⟩ := load_ok_built h
  have hshape : a.tables.getD ti DrsLogicalTable.new =
      buildOne data (pt + 12 * totalEntryCount (a.tables.take ti))
        (pt + 12 * totalEntryCount a.tables + totalContentSize (a.tables.take ti))
        (a.tables.getD ti DrsLogicalTable.new) := by
    conv_lhs => rw [heq]
    rw [builtTables_getD data a.tables pt _ ti hti,
      sizesBefore_eq_take data a.tables pt (pt + 12 * totalEntryCount a.tables) ti, ← heq]
  refine ⟨_, _, hshape, ?_⟩
  have hts : tableSizes (a.tables.getD ti DrsLogicalTable.new) =
      sizesAt data (pt + 12 * totalEntryCount (a.tables.take ti))
        (a.tables.getD ti DrsLogicalTable.new).header.file_count := by
    conv_lhs => rw [hshape]
    rfl
  rw [← hts]
  have h1 := take_sum_getD_le (a.tables.map (fun t => (tableSizes t).sum)) ti
    (by simpa using hti)
  rw [getD_map_tableSizes a.tables ti hti] at h1
  have h2 := totalContentSize_take a.tables ti
  have h3 : totalContentSize a.tables =
      (a.tables.map (fun t => (tableSizes t).sum)).sum := rfl
  omega

theorem load_ok_table_parts {data : List Nat} {name : String} {a : DrsFile}
    (h : DrsFile.read_from_file data name = .ok a) {ti : Nat}
    (hti : ti < a.tables.length) :
    ∃ p q : Nat,
      (a.tables.getD ti DrsLogicalTable.new).entries =
        entryListAt data p (a.tables.getD ti DrsLogicalTable.new).header.file_count ∧
      (a.tables.getD ti DrsLogicalTable.new).contents =
        bufListAt data q (tableSizes (a.tables.getD ti DrsLogicalTable.new)) ∧
      (a.tables.getD ti DrsLogicalTable.new).index_map =
        populateLoop (a.tables.getD ti DrsLogicalTable.new).entries 0 [] ∧
      q + (tableSizes (a.tables.getD ti DrsLogicalTable.new)).sum ≤ data.length := by
  obtain ⟨p, q, hshape, hbound⟩ := load_ok_table h hti
  have hts : tableSizes (a.tables.getD ti DrsLogicalTable.new) =
      sizesAt data p (a.tables.getD ti DrsLogicalTable.new).header.file_count := by
    conv_lhs => rw [hshape]
    rfl
  refine ⟨p, q, ?_, ?_, ?_, ?_⟩
  · conv_lhs => rw [hshape]
    rfl
  · conv_lhs => rw [hshape]
    rw [hts]
    rfl
  · conv_lhs => rw [hshape]
    conv_rhs => rw [hshape]
    rfl
  · rw [hts]
    exact hbound

theorem load_ok_lengths {data : List Nat} {name : String} {a : DrsFile}
    (h : DrsFile.read_from_file data name = .ok a) :
    ∀ t ∈ a.tables, t.entries.length = t.header.file_count ∧
      t.contents.length = t.header.file_count := by
  intro t ht
  obtain ⟨⟨ti, hti⟩, hget⟩ := List.mem_iff_get.mp ht
  have hgd : a.tables.getD ti DrsLogicalTable.new = t := by
    rw [List.getD_eq_getElem a.tables DrsLogicalTable.new hti]
    exact hget
  obtain ⟨p, q, he, hc, _, _⟩ := load_ok_table_parts h hti
  rw [hgd] at he hc
  constructor
  · rw [he]
    exact entryListAt_length data _ p
  · rw [hc, bufListAt_length]
    simp [tableSizes, he, entryListAt_length]

theorem load_ok_shape {data : List Nat} {name : String} {a : DrsFile}
    (h : DrsFile.read_from_file data name = .ok a) :
    ∃ pt : Nat,
      a.tables = builtTables data pt (pt + 12 * totalEntryCount a.tables) a.tables ∧
      ∀ ti : Nat, ti < a.tables.length →
        a.tables.getD ti DrsLogicalTable.new =
          buildOne data (pt + 12 * totalEntryCount (a.tables.take ti))
            (pt + 12 * totalEntryCount a.tables + totalContentSize (a.tables.take ti))
            (a.tables.getD ti DrsLogicalTable.new) := by
  obtain ⟨pt, hlen, heq, hbound⟩ := load_ok_built h
  refine ⟨pt, heq, ?_⟩
  intro ti hti
  conv_lhs => rw [heq]
  rw [builtTables_getD data a.tables pt _ ti hti,
    sizesBefore_eq_take data a.tables pt (pt + 12 * totalEntryCount a.tables) ti, ← heq]

/-- C2: in every successfully loaded archive, each table's entry list,
content list and declared `file_count` all have the same length (the
entry loop pushes exactly `file_count` records and the content loop
pushes exactly one buffer per entry). -/
theorem claim2_parallel_lengths (data : List Nat) (name : String) (a : DrsFile)
    (h : DrsFile.read_from_file data name = .ok a) :
    ∀ t ∈ a.tables, t.entries.length = t.header.file_count ∧
      t.contents.length = t.header.file_count ∧
      t.entries.length = t.contents.length := by
  intro t ht
  obtain ⟨h1, h2⟩ := load_ok_lengths h t ht
  exact ⟨h1, h2, by omega⟩

/-- C3: when several entries of a loaded table share a `file_id`, lookup
returns the content buffer of the entry appearing last in entry order:
the index map is populated in entry order and each insert overwrites
the previous binding for that id. -/
theorem claim3_last_duplicate_wins (data : List Nat) (name : String) (a : DrsFile)
    (h : DrsFile.read_from_file data name = .ok a) (ti j id : Nat)
    (hti : ti < a.tables.length)
    (hj : j < (a.tables.getD ti DrsLogicalTable.new).entries.length)
    (hid : ((a.tables.getD ti DrsLogicalTable.new).entries.getD j
      DrsTableEntry.new).file_id = id)
    (hlast : ∀ k : Nat, j < k →
      k < (a.tables.getD ti DrsLogicalTable.new).entries.length →
      ((a.tables.getD ti DrsLogicalTable.new).entries.getD k
        DrsTableEntry.new).file_id ≠ id) :
    (a.tables.getD ti DrsLogicalTable.new).find_file_contents id =
      some ((a.tables.getD ti DrsLogicalTable.new).contents.getD j []) := by
  obtain ⟨p, q, he, hc, him, hbound⟩ := load_ok_table_parts h hti
  subst hid
  unfold DrsLogicalTable.find_file_contents
  rw [him, populateLoop_last _ 0 [] j hj hlast]
  simp

/-- C4: for an entry `e` that is the last entry of its table bearing its
`file_id`, lookup returns a buffer of length exactly `e.file_size`, and
that buffer is a verbatim contiguous slice of the input bytes. -/
theorem claim4_content_length_verbatim (data : List Nat) (name : String) (a : DrsFile)
    (h : DrsFile.read_from_file data name = .ok a) (ti j : Nat)
    (hti : ti < a.tables.length)
    (hj : j < (a.tables.getD ti DrsLogicalTable.new).entries.length)
    (hlast : ∀ k : Nat, j < k →
      k < (a.tables.getD ti DrsLogicalTable.new).entries.length →
      ((a.tables.getD ti DrsLogicalTable.new).entries.getD k
        DrsTableEntry.new).file_id ≠
        ((a.tables.getD ti DrsLogicalTable.new).entries.getD j
          DrsTableEntry.new).file_id) :
    ∃ buf : List Nat,
      (a.tables.getD ti DrsLogicalTable.new).find_file_contents
        ((a.tables.getD ti DrsLogicalTable.new).entries.getD j
          DrsTableEntry.new).file_id = some buf ∧
      buf.length = ((a.tables.getD ti DrsLogicalTable.new).entries.getD j
        DrsTableEntry.new).file_size ∧
      ∃ off : Nat, buf = sliceAt data off
        ((a.tables.getD ti DrsLogicalTable.new).entries.getD j
          DrsTableEntry.new).file_size := by
  obtain ⟨p, q, he, hc, him, hbound⟩ := load_ok_table_parts h hti
  have hfind : (a.tables.getD ti DrsLogicalTable.new).find_file_contents
      ((a.tables.getD ti DrsLogicalTable.new).entries.getD j
        DrsTableEntry.new).file_id =
      some ((a.tables.getD ti DrsLogicalTable.new).contents.getD j []) := by
    unfold DrsLogicalTable.find_file_contents
    rw [him, populateLoop_last _ 0 [] j hj hlast]
    simp
  have hlen : j < (tableSizes (a.tables.getD ti DrsLogicalTable.new)).length := by
    simpa [tableSizes] using hj
  have hcj : (a.tables.getD ti DrsLogicalTable.new).contents.getD j [] =
      sliceAt data (q + ((tableSizes (a.tables.getD ti DrsLogicalTable.new)).take j).sum)
        ((tableSizes (a.tables.getD ti DrsLogicalTable.new)).getD j 0) := by
    rw [hc]
    exact bufListAt_getD data _ q j hlen
  have hsz : (tableSizes (a.tables.getD ti DrsLogicalTable.new)).getD j 0 =
      ((a.tables.getD ti DrsLogicalTable.new).entries.getD j
        DrsTableEntry.new).file_size :=
    entry_sizes_getD (a.tables.getD ti DrsLogicalTable.new).entries j hj
  have hbnd := take_sum_getD_le (tableSizes (a.tables.getD ti DrsLogicalTable.new)) j hlen
  rw [hsz] at hcj
  refine ⟨(a.tables.getD ti DrsLogicalTable.new).contents.getD j [], hfind, ?_,
    q + ((tableSizes (a.tables.getD ti DrsLogicalTable.new)).take j).sum, hcj⟩
  rw [hcj]
  apply sliceAt_length
  rw [← hsz]
  omega

/-- C9: decoding reads the stream strictly in order with no interleaving:
there is a single offset `pt` such that every table's entry directory is
the run of consecutive 12-byte records at `pt` plus 12 bytes per earlier
entry (all tables' entry records are contiguous and precede all content
bytes), and every table's contents are the consecutive buffers starting
at `pt + 12 * total entry count` in table-then-entry order. -/
theorem claim9_strict_order (data : List Nat) (name : String) (a : DrsFile)
    (h : DrsFile.read_from_file data name = .ok a) :
    ∃ pt : Nat,
      a.tables = builtTables data pt (pt + 12 * totalEntryCount a.tables) a.tables ∧
      ∀ ti : Nat, ti < a.tables.length →
        (a.tables.getD ti DrsLogicalTable.new).entries =
          entryListAt data (pt + 12 * totalEntryCount (a.tables.take ti))
            (a.tables.getD ti DrsLogicalTable.new).header.file_count ∧
        (a.tables.getD ti DrsLogicalTable.new).contents =
          bufListAt data
            (pt + 12 * totalEntryCount a.tables + totalContentSize (a.tables.take ti))
            (tableSizes (a.tables.getD ti DrsLogicalTable.new)) := by
  obtain ⟨pt, heq, hshape⟩ := load_ok_shape h
  refine ⟨pt, heq, ?_⟩
  intro ti hti
  have hs := hshape ti hti
  have hts : tableSizes (a.tables.getD ti DrsLogicalTable.new) =
      sizesAt data (pt + 12 * totalEntryCount (a.tables.take ti))
        (a.tables.getD ti DrsLogicalTable.new).header.file_count := by
    conv_lhs => rw [hs]
    rfl
  constructor
  · conv_lhs => rw [hs]
    rfl
  · conv_lhs => rw [hs]
    rw [hts]
    rfl

/-- C5 (amended): every load yields a fully populated, internally
consistent archive, or an `Err` value, or aborts by panicking (unknown
table file-type tag or non-UTF-8 discriminator bytes); it never returns
a partially populated archive as success. -/
theorem claim5_atomic_or_abort (data : List Nat) (name : String) :
    (∃ a : DrsFile, DrsFile.read_from_file data name = .ok a ∧ fullyPopulated a) ∨
    (∃ e : DrsError, DrsFile.read_from_file data name = .err e) ∨
    (∃ p : DrsPanic, DrsFile.read_from_file data name = .panicked p) := by
  cases hr : DrsFile.read_from_file data name with
  | ok a =>
    left
    refine ⟨a, rfl, ?_, ?_⟩
    · exact (load_ok_built hr).choose_spec.1
    · intro t ht
      exact load_ok_lengths hr t ht
  | err e =>
    right
    left
    exact ⟨e, rfl⟩
  | panicked p =>
    right
    right
    exact ⟨p, rfl⟩

/-- C7: the format validator accepts exactly the byte slices that are at
least as long as the expected literal and agree with it on the literal's
full length, failing otherwise with a format-invalid error carrying the
source file name; bytes beyond the literal's length are ignored. -/
theorem claim7_validate_str_char (f : String) (bs exp : List Nat) :
    validate_str f bs exp =
      (if exp.length ≤ bs.length ∧ bs.take exp.length = exp then .ok ()
        else .err (.invalidDrs f)) ∧
    validate_str f (exp ++ bs) exp = .ok () := by
  constructor
  · unfold validate_str
    by_cases hc : exp.length ≤ bs.length ∧ bs.take exp.length = exp
    · rw [if_pos hc, if_neg (by push_neg; exact ⟨by omega, hc.2⟩)]
    · rw [if_neg hc]
      have : bs.length < exp.length ∨ bs.take exp.length ≠ exp := by
        by_cases h1 : exp.length ≤ bs.length
        · right
          intro hh
          exact hc ⟨h1, hh⟩
        · left
          omega
      rw [if_pos this]
  · unfold validate_str
    rw [if_neg]
    push_neg
    constructor
    · simp
    · simp

/-- C1 (amended): when decoding reaches a table header whose file-type
tag is not one of the 4 known values, the load aborts by panicking with
the raw tag (the `panic!` arm of `From<u32> for DrsFileType`); it
produces neither an archive nor an error value. -/
theorem claim1_unknown_tag_panics (data : List Nat) (name : String)
    (hdr : DrsHeader) (s1 : ByteStream) (raw : Nat)
    (h1 : DrsHeader.read_from_file data name = .ok (hdr, s1))
    (h2 : readTableHeadersLoop hdr.table_count s1 = .panicked (.unknownFileType raw)) :
    DrsFile.read_from_file data name = .panicked (.unknownFileType raw) ∧
    raw ≠ 0x62696E61 ∧ raw ≠ 0x736C7020 ∧ raw ≠ 0x73687020 ∧ raw ≠ 0x77617620 ∧
    (DrsFile.read_from_file data name).isOk = false ∧
    (DrsFile.read_from_file data name).isErr = false := by
  have hmain : DrsFile.read_from_file data name = .panicked (.unknownFileType raw) := by
    unfold DrsFile.read_from_file
    rw [h1]
    simp only [DrsOutcome.ok_bind]
    rw [h2]
    rfl
  obtain ⟨raw', hraw', hne1, hne2, hne3, hne4⟩ :=
    readTableHeadersLoop_panicked hdr.table_count s1 _ h2
  cases hraw'
  exact ⟨hmain, hne1, hne2, hne3, hne4, by rw [hmain]; rfl, by rw [hmain]; rfl⟩

/-- C6: the header resolver reads the 4 bytes at absolute offset 64; when
they decode as text, it selects the SWBG variant exactly when the trimmed
text equals `"swbg"` and otherwise defaults to the AOE variant (no
rejection), then parses the variant-specific header from offset 0; a
successfully parsed header reports the selected variant. -/
theorem claim6_variant_selection (data : List Nat) (name : String) (cps : List Nat)
    (h1 : 68 ≤ data.length)
    (h2 : utf8Decode (sliceAt data 64 4) = some cps) :
    DrsHeader.read_from_file data name =
      parseVariantHeader (if trimCodepoints cps = swbgText then .SWBG else .AOE)
        ⟨data, 0⟩ name ∧
    ∀ (hdr : DrsHeader) (s' : ByteStream),
      parseVariantHeader (if trimCodepoints cps = swbgText then .SWBG else .AOE)
        ⟨data, 0⟩ name = .ok (hdr, s') →
      hdr.game_type = (if trimCodepoints cps = swbgText then .SWBG else .AOE) := by
  constructor
  · unfold DrsHeader.read_from_file
    rw [show readExact 4 ⟨data, 64⟩ =
      .ok (sliceAt data 64 4, ⟨data, 64 + 4⟩) from by
        unfold readExact
        rw [if_pos (by simpa using (by omega : 64 + 4 ≤ data.length))]]
    simp only [DrsOutcome.ok_bind]
    rw [h2]
  · intro hdr s' hp
    exact (parseVariantHeader_ok hp).2.2

/-- C10: when the 4 discriminator bytes at absolute offset 64 are not
valid UTF-8, the load panics (the `expect` on `str::from_utf8`) instead
of returning any value: it yields neither an `Ok` archive nor an `Err`. -/
theorem claim10_non_utf8_panics (data : List Nat) (name : String)
    (h1 : 68 ≤ data.length)
    (h2 : utf8Decode (sliceAt data 64 4) = none) :
    DrsFile.read_from_file data name = .panicked (.nonUtf8 (sliceAt data 64 4)) ∧
    (DrsFile.read_from_file data name).isOk = false ∧
    (DrsFile.read_from_file data name).isErr = false := by
  have hmain : DrsFile.read_from_file data name =
      .panicked (.nonUtf8 (sliceAt data 64 4)) := by
    unfold DrsFile.read_from_file DrsHeader.read_from_file
    rw [show readExact 4 ⟨data, 64⟩ =
      .ok (sliceAt data 64 4, ⟨data, 64 + 4⟩) from by
        unfold readExact
        rw [if_pos (by simpa using (by omega : 64 + 4 ≤ data.length))]]
    simp only [DrsOutcome.ok_bind]
    rw [h2]
    rfl
  exact ⟨hmain, by rw [hmain]; rfl, by rw [hmain]; rfl⟩

/-- C8: content extraction never stores a truncated buffer - on success
every stored buffer has exactly its entry's declared length - and when
the bytes remaining at the start of content extraction are fewer than
the declared total, the load fails with an I/O error. -/
theorem claim8_short_read_fatal (data : List Nat) (name : String) :
    (∀ a : DrsFile, DrsFile.read_from_file data name = .ok a →
      ∀ t ∈ a.tables, ∀ j : Nat, j < t.entries.length →
        (t.contents.getD j []).length = (t.entries.getD j DrsTableEntry.new).file_size) ∧
    (∀ (hdr : DrsHeader) (s1 : ByteStream) (ts1 : List DrsLogicalTable)
      (s2 : ByteStream) (ts2 : List DrsLogicalTable) (s3 : ByteStream),
      DrsHeader.read_from_file data name = .ok (hdr, s1) →
      readTableHeadersLoop hdr.table_count s1 = .ok (ts1, s2) →
      readEntryPhase ts1 s2 = .ok (ts2, s3) →
      data.length < s3.pos + totalContentSize ts2 →
      DrsFile.read_from_file data name = .err .ioError) := by
  constructor
  · intro a ha t ht j hj
    obtain ⟨⟨ti, hti⟩, hget⟩ := List.mem_iff_get.mp ht
    have hgd : a.tables.getD ti DrsLogicalTable.new = t := by
      rw [List.getD_eq_getElem a.tables DrsLogicalTable.new hti]
      exact hget
    obtain ⟨p, q, he, hc, him, hbound⟩ := load_ok_table_parts ha hti
    rw [hgd] at he hc
    have hlen : j < (tableSizes t).length := by
      simpa [tableSizes] using hj
    have hcj : t.contents.getD j [] =
        sliceAt data (q + ((tableSizes t).take j).sum) ((tableSizes t).getD j 0) := by
      rw [hc]
      exact bufListAt_getD data _ q j hlen
    have hsz : (tableSizes t).getD j 0 = (t.entries.getD j DrsTableEntry.new).file_size :=
      entry_sizes_getD t.entries j hj
    have hbnd := take_sum_getD_le (tableSizes t) j hlen
    rw [hgd] at hbound
    rw [hcj, hsz]
    apply sliceAt_length
    rw [← hsz]
    omega
  · intro hdr s1 ts1 s2 ts2 s3 hhdr htbl hent hshort
    obtain ⟨hd1, hp1⟩ := drsHeaderRead_ok hhdr
    simp only at hd1 hp1
    obtain ⟨hlen1, hs2, hfresh, hbound2⟩ := readTableHeadersLoop_ok _ _ _ htbl
    simp only at hs2 hbound2
    rw [hd1] at hs2
    have hp2 : s2.pos ≤ data.length := by
      have := hbound2 (by rw [hd1]; exact hp1)
      rw [hd1] at this
      exact this
    rw [readEntryPhase_eq ts1 s2 (by rw [hs2]; rw [hs2] at hp2; exact hp2)] at hent
    rw [hs2] at hent
    simp only at hent
    split at hent
    case isFalse => cases hent
    case isTrue hce =>
      rw [DrsOutcome.ok.injEq, Prod.mk.injEq] at hent
      obtain ⟨hts2, hs3⟩ := hent
      subst hts2
      subst hs3
      have hshort2 : data.length < s1.pos + 12 * hdr.table_count +
          12 * totalEntryCount ts1 +
          totalContentSize (attachEntriesAt data (s1.pos + 12 * hdr.table_count) ts1) :=
        hshort
      unfold DrsFile.read_from_file
      rw [hhdr]
      simp only [DrsOutcome.ok_bind]
      rw [htbl]
      simp only [DrsOutcome.ok_bind]
      rw [readEntryPhase_eq ts1 s2 (by rw [hs2]; rw [hs2] at hp2; exact hp2)]
      rw [hs2]
      simp only
      rw [if_pos hce]
      simp only [DrsOutcome.ok_bind]
      rw [readContentsPhase_eq _ _ (by simp only; omega)]
      rw [if_neg (by simp only; omega)]
      rfl

set_option maxRecDepth 1000000

theorem claim1_unknown_tag_panics_witness :
    DrsFile.read_from_file unknownTagData "u.drs" =
      .panicked (.unknownFileType 0x64636261) ∧
    (0x64636261 : Nat) ≠ 0x62696E61 ∧ (0x64636261 : Nat) ≠ 0x736C7020 ∧
    (0x64636261 : Nat) ≠ 0x73687020 ∧ (0x64636261 : Nat) ≠ 0x77617620 ∧
    (DrsFile.read_from_file unknownTagData "u.drs").isOk = false ∧
    (DrsFile.read_from_file unknownTagData "u.drs").isErr = false :=
  claim1_unknown_tag_panics unknownTagData "u.drs" unknownHeaderOut.1
    unknownHeaderOut.2 0x64636261 rfl (by decide)

theorem claim1_counterexample :
    DrsFile.read_from_file unknownTagData "u.drs" =
      .panicked (.unknownFileType 0x64636261) ∧
    (DrsFile.read_from_file unknownTagData "u.drs").isErr = false ∧
    (DrsFile.read_from_file unknownTagData "u.drs").isOk = false :=
  ⟨by decide, by decide, by decide⟩

theorem claim2_parallel_lengths_witness :
    (exArchive.tables.getD 0 DrsLogicalTable.new).entries.length =
      (exArchive.tables.getD 0 DrsLogicalTable.new).header.file_count ∧
    (exArchive.tables.getD 0 DrsLogicalTable.new).contents.length =
      (exArchive.tables.getD 0 DrsLogicalTable.new).header.file_count := by
  have h := claim2_parallel_lengths exData "ex.drs" exArchive rfl
    (exArchive.tables.getD 0 DrsLogicalTable.new) (by decide)
  exact ⟨h.1, h.2.1⟩

theorem claim3_last_duplicate_wins_witness :
    (exArchive.tables.getD 0 DrsLogicalTable.new).find_file_contents 7 =
      some ((exArchive.tables.getD 0 DrsLogicalTable.new).contents.getD 2 []) := by
  apply claim3_last_duplicate_wins exData "ex.drs" exArchive rfl 0 2 7
    (by decide) (by decide) (by decide)
  intro k hk1 hk2
  exfalso
  have hl : (exArchive.tables.getD 0 DrsLogicalTable.new).entries.length = 3 := by decide
  omega

theorem claim4_content_length_verbatim_witness :
    ∃ buf : List Nat,
      (exArchive.tables.getD 0 DrsLogicalTable.new).find_file_contents
        ((exArchive.tables.getD 0 DrsLogicalTable.new).entries.getD 2
          DrsTableEntry.new).file_id = some buf ∧
      buf.length = ((exArchive.tables.getD 0 DrsLogicalTable.new).entries.getD 2
        DrsTableEntry.new).file_size ∧
      ∃ off : Nat, buf = sliceAt exData off
        ((exArchive.tables.getD 0 DrsLogicalTable.new).entries.getD 2
          DrsTableEntry.new).file_size := by
  apply claim4_content_length_verbatim exData "ex.drs" exArchive rfl 0 2
    (by decide) (by decide)
  intro k hk1 hk2
  exfalso
  have hl : (exArchive.tables.getD 0 DrsLogicalTable.new).entries.length = 3 := by decide
  omega

theorem claim5_counterexample :
    (DrsFile.read_from_file nonUtf8Data2 "c.drs").isOk = false ∧
    (DrsFile.read_from_file nonUtf8Data2 "c.drs").isErr = false :=
  ⟨by decide, by decide⟩

theorem claim6_variant_selection_witness :
    DrsHeader.read_from_file asciiDiscData "d.drs" =
      parseVariantHeader
        (if trimCodepoints [0, 0, 0, 0] = swbgText then .SWBG else .AOE)
        ⟨asciiDiscData, 0⟩ "d.drs" :=
  (claim6_variant_selection asciiDiscData "d.drs" [0, 0, 0, 0]
    (by decide) (by decide)).1

theorem claim8_short_read_fatal_witness :
    DrsFile.read_from_file truncatedData "trunc.drs" = .err .ioError ∧
    ((exArchive.tables.getD 0 DrsLogicalTable.new).contents.getD 2 []).length =
      ((exArchive.tables.getD 0 DrsLogicalTable.new).entries.getD 2
        DrsTableEntry.new).file_size := by
  constructor
  · exact (claim8_short_read_fatal truncatedData "trunc.drs").2
      truncHeaderOut.1 truncHeaderOut.2 truncTablesOut.1 truncTablesOut.2
      truncEntriesOut.1 truncEntriesOut.2 rfl rfl rfl (by decide)
  · exact (claim8_short_read_fatal exData "ex.drs").1 exArchive rfl
      (exArchive.tables.getD 0 DrsLogicalTable.new) (by decide) 2 (by decide)

theorem claim9_strict_order_witness :
    ∃ pt : Nat,
      exArchive.tables =
        builtTables exData pt (pt + 12 * totalEntryCount exArchive.tables)
          exArchive.tables ∧
      ∀ ti : Nat, ti < exArchive.tables.length →
        (exArchive.tables.getD ti DrsLogicalTable.new).entries =
          entryListAt exData (pt + 12 * totalEntryCount (exArchive.tables.take ti))
            (exArchive.tables.getD ti DrsLogicalTable.new).header.file_count ∧
        (exArchive.tables.getD ti DrsLogicalTable.new).contents =
          bufListAt exData
            (pt + 12 * totalEntryCount exArchive.tables +
              totalContentSize (exArchive.tables.take ti))
            (tableSizes (exArchive.tables.getD ti DrsLogicalTable.new)) :=
  claim9_strict_order exData "ex.drs" exArchive rfl

theorem claim10_non_utf8_panics_witness :
    DrsFile.read_from_file nonUtf8Data "b.drs" =
      .panicked (.nonUtf8 (sliceAt nonUtf8Data 64 4)) ∧
    (DrsFile.read_from_file nonUtf8Data "b.drs").isOk = false ∧
    (DrsFile.read_from_file nonUtf8Data "b.drs").isErr = false :=
  claim10_non_utf8_panics nonUtf8Data "b.drs" (by decide) (by decide)
